import Mathlib

/-! # gollama: admission scheduler, proxy relay and engine supervisor

A shallow embedding of `internal/queue/scheduler.go`, `internal/handler/proxy.go`
and `engine/manager.go`, with the properties of the written specification
stated over it.

Conventions of the embedding.
* Time is a discrete line of instants (`Int`); a `time.Duration` is an `Int`.
* A blocking operation evaluated at an instant either completes or reports
  `blocked` (no communication of its `select` can proceed at that instant).
* Where the Go runtime chooses among several ready `select` cases, the choice
  is an explicit Boolean argument, so every theorem quantifying over it covers
  all choices the runtime may make.
* What the operating system, the network and the standard library decide (how a
  start unfolds, what the upstream answers, whether a body parses) is an
  explicit argument of the function that depends on it.
* Panics are not modelled: an upstream status code is one `WriteHeader` accepts.
-/

namespace Gollama

/-! ## Errors and contexts -/

/-- Go `error` values that occur in the program. -/
inductive GoError where
  /-- The value `context.Canceled`. -/
  | Canceled
  /-- The value `context.DeadlineExceeded`. -/
  | DeadlineExceeded
  /-- A value made by `errors.New(msg)`. -/
  | New (msg : String)
  /-- A value made by `fmt.Errorf(format, d)` for a `time.Duration` `d`. -/
  | Errorf (format : String) (d : Int)
  /-- The `*exec.ExitError` returned by `cmd.Wait()` for a non-zero exit. -/
  | ExitError (status : Int)
  deriving DecidableEq, Repr

/-- The test `errors.Is(err, context.DeadlineExceeded)`. -/
def GoError.isDeadlineExceeded : GoError → Bool
  | GoError.DeadlineExceeded => true
  | _ => false

/-- The two errors a context reports once it is done. -/
inductive ContextErr where
  | Canceled
  | DeadlineExceeded
  deriving DecidableEq, Repr

/-- The `error` value of a context error. -/
def ContextErr.toError : ContextErr → GoError
  | ContextErr.Canceled => GoError.Canceled
  | ContextErr.DeadlineExceeded => GoError.DeadlineExceeded

/-- A `context.Context` over the time line: `doneAt` is the instant at which
`Done()` is closed (`none` when it never is) and `cause` is what `Err()`
returns from then on: `Canceled` when it was cancelled, `DeadlineExceeded` when
its own deadline passed. -/
structure Context where
  doneAt : Option Int
  cause : ContextErr
  deriving DecidableEq, Repr

/-- The method `ctx.Err()` at instant `now`: nil (`none`) until the context is done. -/
def Context.Err (ctx : Context) (now : Int) : Option GoError :=
  match ctx.doneAt with
  | some t => if t ≤ now then some ctx.cause.toError else none
  | none => none

/-- The call `context.WithTimeout(parent, d)` made at instant `t0`. The child is
done as soon as the parent is done (inheriting the parent's error) or when
its own timer fires at `t0 + d` (error `DeadlineExceeded`), whichever is
first; `timerFirst` settles the order when both fall on the same instant. -/
def WithTimeout (parent : Context) (t0 d : Int) (timerFirst : Bool) : Context :=
  match parent.doneAt with
  | some t =>
    if t < t0 + d ∨ (t = t0 + d ∧ timerFirst = false) then parent
    else { doneAt := some (t0 + d), cause := ContextErr.DeadlineExceeded }
  | none => { doneAt := some (t0 + d), cause := ContextErr.DeadlineExceeded }

/-! ## internal/queue/scheduler.go -/

/-- The buffered channel `chan struct{}`: its capacity and the number of
elements in its buffer (the elements themselves carry no data). -/
structure Chan where
  cap : Nat
  len : Nat
  deriving DecidableEq, Repr

/-- A send `c <- struct{}{}` can proceed iff the buffer is not full. -/
def Chan.send (c : Chan) : Option Chan :=
  if c.len < c.cap then some { c with len := c.len + 1 } else none

/-- A receive `<-c` can proceed iff the buffer is not empty. -/
def Chan.recv (c : Chan) : Option Chan :=
  if 0 < c.len then some { c with len := c.len - 1 } else none

/-- The struct `Scheduler`. -/
structure Scheduler where
  sem : Chan
  waitTimeout : Int
  deriving DecidableEq, Repr

/-- The constructor `New(maxConcurrency, waitTimeout)`. -/
def New (maxConcurrency : Int) (waitTimeout : Int) : Scheduler :=
  let maxConcurrency := if maxConcurrency < 1 then 1 else maxConcurrency
  { sem := { cap := maxConcurrency.toNat, len := 0 }, waitTimeout := waitTimeout }

/-- Number of slots currently held: the occupancy of `sem`. -/
def Scheduler.held (s : Scheduler) : Nat := s.sem.len

/-- Capacity of the scheduler: the capacity of `sem`. -/
def Scheduler.capacity (s : Scheduler) : Nat := s.sem.cap

/-- Result of evaluating `Acquire` at an instant. -/
inductive Outcome where
  /-- Returned `nil`; the scheduler now holds one more slot. -/
  | ok (s : Scheduler)
  /-- Returned the error `e`; the scheduler is unchanged. -/
  | err (e : GoError)
  /-- No case of the `select` can proceed yet. -/
  | blocked
  deriving DecidableEq, Repr

/-- The two-case `select` of `Acquire`: a send on `sem` against `<-done`.
When both can proceed the runtime picks one (`pickDone`). -/
def selectSendOrDone (s : Scheduler) (doneErr : Option GoError) (pickDone : Bool)
    (onDone : GoError → GoError) : Outcome :=
  match s.sem.send, doneErr with
  | some c, none => Outcome.ok { s with sem := c }
  | some c, some e => if pickDone then Outcome.err (onDone e) else Outcome.ok { s with sem := c }
  | none, some e => Outcome.err (onDone e)
  | none, none => Outcome.blocked

/-- The error made by `errors.New("queue wait timeout")`. -/
def queueWaitTimeout : GoError := GoError.New "queue wait timeout"

/-- The method `Scheduler.Acquire(ctx)` entered at instant `t0` and evaluated at instant
`now`. -/
def Acquire (s : Scheduler) (ctx : Context) (t0 now : Int) (timerFirst pickDone : Bool) :
    Outcome :=
  if s.waitTimeout ≤ 0 then
    selectSendOrDone s (ctx.Err now) pickDone (fun e => e)
  else
    let ctxTimeout := WithTimeout ctx t0 s.waitTimeout timerFirst
    selectSendOrDone s (ctxTimeout.Err now) pickDone
      (fun e => if e.isDeadlineExceeded then queueWaitTimeout else e)

/-- The method `Scheduler.Release()`: a receive on `sem`; `none` when it blocks. -/
def Release (s : Scheduler) : Option Scheduler :=
  match s.sem.recv with
  | some c => some { s with sem := c }
  | none => none

/-- One step of a client of the scheduler. -/
inductive Op where
  | acquire (ctx : Context) (t0 now : Int) (timerFirst pickDone : Bool)
  | release
  deriving DecidableEq, Repr

/-- Effect of a step on the scheduler: a step that does not complete successfully
(a blocked or failed `Acquire`, a blocked `Release`) leaves it unchanged. -/
def applyOp (s : Scheduler) : Op → Scheduler
  | Op.acquire ctx t0 now timerFirst pickDone =>
    match Acquire s ctx t0 now timerFirst pickDone with
    | Outcome.ok s' => s'
    | _ => s
  | Op.release =>
    match Release s with
    | some s' => s'
    | none => s

/-- The background context: never done. -/
def background : Context := { doneAt := none, cause := ContextErr.Canceled }

/-- One call of `Acquire` evaluated at the instant `t` at which it is entered. -/
structure AcquireCall where
  ctx : Context
  t : Int
  timerFirst : Bool
  pickDone : Bool
  deriving DecidableEq, Repr

/-- The scheduler after the calls `calls` of `Acquire` made in a row with no `Release` in
between, each evaluated at the instant it is entered; `none` as soon as one of them does
not return nil at once. -/
def acquireAll : List AcquireCall → Scheduler → Option Scheduler
  | [], s => some s
  | c :: calls, s =>
    match Acquire s c.ctx c.t c.t c.timerFirst c.pickDone with
    | Outcome.ok s' => acquireAll calls s'
    | _ => none

/-! ## net/http and strings: the library operations the proxy uses -/

/-- A byte slice. -/
abbrev Bytes := List UInt8

/-- The bytes of an ASCII string. -/
def stringBytes (s : String) : Bytes := s.data.map (fun c => UInt8.ofNat c.toNat)

/-- Bytes allowed in a header field name (the token characters of RFC 7230), as in
`textproto`: letters, digits, the punctuation listed, the apostrophe (39) and the
backquote (96). -/
def validHeaderFieldByte (c : Char) : Bool :=
  c.isAlphanum || "!#$%&*+-.^_|~".data.contains c || c.toNat == 39 || c.toNat == 96

/-- Canonical casing of the characters of a valid field name: upper case at the start and
after each `-`, lower case elsewhere. -/
def canonicalChars : Bool → List Char → List Char
  | _, [] => []
  | upper, c :: cs =>
    let c' := if upper then c.toUpper else c.toLower
    c' :: canonicalChars (c' == '-') cs

/-- The function `http.CanonicalHeaderKey`: a name holding a byte that is not a token
character is returned unchanged. -/
def CanonicalHeaderKey (s : String) : String :=
  if s.data.all validHeaderFieldByte then String.mk (canonicalChars true s.data) else s

/-- The type `http.Header`, a `map[string][]string`, as an association list. Go ranges over a
map in an unspecified order: the order of the list is the order of one such iteration. -/
abbrev Header := List (String × List String)

/-- The map read `h[k]`. -/
def Header.lookup (h : Header) (k : String) : Option (List String) :=
  match h with
  | [] => none
  | (k', v) :: rest => if k' = k then some v else Header.lookup rest k

/-- The values of `h[k]` (nil when the key is absent). -/
def Header.values (h : Header) (k : String) : List String := (h.lookup k).getD []

/-- The map deletion `delete(h, k)`. -/
def Header.delete (h : Header) (k : String) : Header := h.filter (fun p => p.1 ≠ k)

/-- The map write `h[k] = vs`. -/
def Header.store (h : Header) (k : String) (vs : List String) : Header :=
  (k, vs) :: h.delete k

/-- The names present in the map. -/
def Header.keys (h : Header) : List String := h.map Prod.fst

/-- The method `h.Add(key, value)`: appends to the values under the canonical name. -/
def Header.Add (h : Header) (key value : String) : Header :=
  h.store (CanonicalHeaderKey key) (h.values (CanonicalHeaderKey key) ++ [value])

/-- The method `h.Set(key, value)`: replaces the values under the canonical name. -/
def Header.Set (h : Header) (key value : String) : Header :=
  h.store (CanonicalHeaderKey key) [value]

/-- The method `h.Get(key)`: first value under the canonical name, or `""`. -/
def Header.Get (h : Header) (key : String) : String :=
  match h.values (CanonicalHeaderKey key) with
  | v :: _ => v
  | [] => ""

/-- The method `h.Del(key)`: deletes the entry under the canonical name. -/
def Header.Del (h : Header) (key : String) : Header :=
  h.delete (CanonicalHeaderKey key)

/-- Every name of the map is in canonical form (the documented shape of an `http.Header`,
and what `Add`, `Set` and the HTTP client's header parser produce). -/
def Header.Canonical (h : Header) : Prop := ∀ k ∈ h.keys, CanonicalHeaderKey k = k

/-- Case folding of a character as far as it can meet an ASCII letter: ASCII upper case,
and the two non-ASCII characters that fold to ASCII (`ſ` U+017F to `s`, the Kelvin sign
U+212A to `k`). -/
def foldChar (c : Char) : Char :=
  if c.toNat == 0x17F then 's' else if c.toNat == 0x212A then 'k' else c.toLower

/-- The function `strings.EqualFold(s, t)`, exact whenever one side is ASCII (its only use
compares with `"Host"`). -/
def EqualFold (s t : String) : Bool := s.data.map foldChar == t.data.map foldChar

/-- The function `strings.ToLower` on ASCII letters. No character outside ASCII lowers to a
character of `"text/event-stream"`, so the test made with it below is the one Go makes. -/
def ToLower (s : String) : String := String.mk (s.data.map Char.toLower)

/-- The function `strings.Contains(s, substr)`. -/
def Contains (s substr : String) : Bool := decide (substr.data <:+: s.data)

/-- An `io.Reader` read to its end: the chunks returned by the successive reads, then the
final error (`none` for `io.EOF`). -/
structure Reader where
  chunks : List Bytes
  err : Option GoError

/-- The function `io.ReadAll`. -/
def ReadAll (r : Reader) : Except GoError Bytes :=
  match r.err with
  | some e => Except.error e
  | none => Except.ok r.chunks.flatten

/-- An `http.ResponseWriter`: the staged header map `w.Header()`, the status line and headers
committed by the first `WriteHeader`, the body bytes written and the number of flushes. -/
structure ResponseWriter where
  header : Header
  wrote : Option (Nat × Header)
  body : Bytes
  flushes : Nat

/-- A response writer on which nothing was sent yet, with `staged` headers. -/
def ResponseWriter.fresh (staged : Header) : ResponseWriter :=
  { header := staged, wrote := none, body := [], flushes := 0 }

/-- The method `w.WriteHeader(code)`: the first call commits the status and the staged headers. -/
def ResponseWriter.WriteHeader (w : ResponseWriter) (code : Nat) : ResponseWriter :=
  match w.wrote with
  | some _ => w
  | none => { w with wrote := some (code, w.header) }

/-- The method `w.Write(b)`: commits status 200 first when no header was written. -/
def ResponseWriter.Write (w : ResponseWriter) (b : Bytes) : ResponseWriter :=
  let w1 := w.WriteHeader 200
  { w1 with body := w1.body ++ b }

/-- The method `Flush()` of the `http.Flusher`. -/
def ResponseWriter.Flush (w : ResponseWriter) : ResponseWriter :=
  { w with flushes := w.flushes + 1 }

/-- The function `io.Copy(w, r)`: writes every chunk read until the reader ends. -/
def ioCopy (w : ResponseWriter) (r : Reader) : ResponseWriter :=
  r.chunks.foldl (fun w c => w.Write c) w

/-- What `json.NewEncoder(w).Encode(map[string]string{k: v})` writes, for plain ASCII `k`
and `v`. -/
def jsonObject (k v : String) : Bytes :=
  stringBytes ("\x7b\"" ++ k ++ "\":\"" ++ v ++ "\"\x7d\n")

/-! ## internal/handler/proxy.go -/

/-- A `url.URL` as far as the handler touches it. -/
structure URL where
  base : String
  path : String
  rawQuery : String
  deriving DecidableEq, Repr

/-- The inbound `*http.Request`. -/
structure Request where
  ctx : Context
  method : String
  path : String
  rawQuery : String
  header : Header
  body : Reader

/-- The outbound request given to `h.client.Do`. -/
structure UpstreamRequest where
  ctx : Context
  method : String
  url : URL
  header : Header
  body : Bytes

/-- The upstream `*http.Response`. -/
structure Response where
  statusCode : Nat
  header : Header
  body : Reader

/-- The struct `ProxyHandler`, with `client` standing for `h.client.Do`. -/
structure ProxyHandler where
  sched : Scheduler
  baseURL : URL
  client : UpstreamRequest → Except GoError Response

/-- What the surroundings decide during one call of the handler. -/
structure Env where
  /-- Instant at which `Acquire` is entered. -/
  t0 : Int
  /-- Instant at which `Acquire` is evaluated. -/
  now : Int
  timerFirst : Bool
  pickDone : Bool
  /-- The call `json.Unmarshal(body, &payload)`: `none` on error, else `payload.Stream`. -/
  unmarshal : Bytes → Option Bool
  /-- The error of `http.NewRequestWithContext`, if any. -/
  newRequestErr : Option GoError
  /-- Whether `w.(http.Flusher)` succeeds. -/
  isFlusher : Bool

/-- The function `writeJSON(w, status, map[string]string{k: v})`. -/
def writeJSON (w : ResponseWriter) (status : Nat) (k v : String) : ResponseWriter :=
  let w1 := { w with header := w.header.Set "Content-Type" "application/json" }
  let w2 := w1.WriteHeader status
  w2.Write (jsonObject k v)

/-- The function `extractStreamFlag(body)`. -/
def extractStreamFlag (unmarshal : Bytes → Option Bool) (body : Bytes) : Bool :=
  match unmarshal body with
  | none => false
  | some stream => stream

/-- The function `copyHeaders(dst, src)`. -/
def copyHeaders (dst src : Header) : Header :=
  src.foldl (fun dst kv =>
    if EqualFold kv.1 "Host" then dst
    else kv.2.foldl (fun dst vv => dst.Add kv.1 vv) dst) dst

/-- The function `copySSEHeaders(dst, src)`. Deleting while ranging over `dst` is the same as
deleting every name of `dst` in turn, `Del` being idempotent. -/
def copySSEHeaders (dst src : Header) : Header :=
  let dst := dst.keys.foldl (fun dst k => dst.Del k) dst
  let dst := src.foldl (fun dst kv => kv.2.foldl (fun dst vv => dst.Add kv.1 vv) dst) dst
  let dst := dst.Set "Content-Type" "text/event-stream"
  let dst := dst.Set "Cache-Control" "no-cache"
  dst.Set "Connection" "keep-alive"

/-- The function `streamResponse(w, resp)`. -/
def streamResponse (w : ResponseWriter) (resp : Response) (isFlusher : Bool) : ResponseWriter :=
  if !isFlusher then writeJSON w 500 "error" "streaming unsupported"
  else resp.body.chunks.foldl (fun w c => if 0 < c.length then (w.Write c).Flush else w) w

/-- The test `isSSE` of `handleChatCompletions`. -/
def isSSE (stream : Bool) (resp : Response) : Bool :=
  stream || Contains (ToLower (resp.header.Get "Content-Type")) "text/event-stream"

/-- A call made by the handler that the properties below count. -/
inductive Event where
  | Acquire
  | Release
  | Do (req : UpstreamRequest)
  | Streamed
  | Buffered

/-- Whether the event is a call of `h.sched.Release()`. -/
def Event.isRelease : Event → Bool
  | Event.Release => true
  | _ => false

/-- Whether the event is a request issued upstream by `h.client.Do`. -/
def Event.isDo : Event → Bool
  | Event.Do _ => true
  | _ => false

/-- What a call of the handler leaves behind. -/
structure Handled where
  w : ResponseWriter
  sched : Scheduler
  trace : List Event

/-- The deferred `h.sched.Release()`, run when the guarded part of the handler returns. -/
def deferredRelease (s : Scheduler) (w : ResponseWriter) (trace : List Event) : Option Handled :=
  match Release s with
  | some s' => some { w := w, sched := s', trace := Event.Acquire :: trace ++ [Event.Release] }
  | none => none

/-- The method `ProxyHandler.handleChatCompletions(w, r)`; `none` while it is blocked. -/
def handleChatCompletions (h : ProxyHandler) (w : ResponseWriter) (r : Request) (env : Env) :
    Option Handled :=
  match Acquire h.sched r.ctx env.t0 env.now env.timerFirst env.pickDone with
  | Outcome.blocked => none
  | Outcome.err _ =>
    some { w := writeJSON w 429 "error" "queue timeout", sched := h.sched,
           trace := [Event.Acquire] }
  | Outcome.ok s =>
    match ReadAll r.body with
    | Except.error _ => deferredRelease s (writeJSON w 400 "error" "invalid body") []
    | Except.ok bodyBytes =>
      let stream := extractStreamFlag env.unmarshal bodyBytes
      let upstreamURL : URL := { h.baseURL with path := r.path, rawQuery := r.rawQuery }
      match env.newRequestErr with
      | some _ => deferredRelease s (writeJSON w 502 "error" "upstream request failed") []
      | none =>
        let req : UpstreamRequest :=
          { ctx := r.ctx, method := r.method, url := upstreamURL,
            header := copyHeaders [] r.header, body := bodyBytes }
        match h.client req with
        | Except.error _ =>
          deferredRelease s (writeJSON w 502 "error" "upstream unavailable") [Event.Do req]
        | Except.ok resp =>
          if isSSE stream resp then
            let w1 := { w with header := copySSEHeaders w.header resp.header }
            let w2 := w1.WriteHeader resp.statusCode
            deferredRelease s (streamResponse w2 resp env.isFlusher) [Event.Do req, Event.Streamed]
          else
            let w1 := { w with header := copyHeaders w.header resp.header }
            let w2 := w1.WriteHeader resp.statusCode
            deferredRelease s (ioCopy w2 resp.body) [Event.Do req, Event.Buffered]

/-! ## engine/manager.go -/

/-- The durations of `config.EngineConfig` that the supervisor reads. -/
structure EngineConfig where
  StartTimeout : Int
  StopTimeout : Int
  RestartBackoff : Int
  deriving DecidableEq, Repr

/-- An `*exec.Cmd`: whether `cmd.Process` is set (after a successful `cmd.Start()`), and
whether the process was sent SIGINT or killed. -/
structure Cmd where
  started : Bool
  interrupted : Bool
  killed : Bool
  deriving DecidableEq, Repr

/-- A `chan error` of capacity 1: its buffered values, oldest first (`none` is a nil error). -/
structure ErrChan where
  buf : List (Option GoError)
  deriving DecidableEq, Repr

/-- The struct `Engine`. -/
structure Engine where
  cfg : EngineConfig
  cmd : Option Cmd
  exitCh : Option ErrChan
  ready : Bool
  stopping : Bool
  deriving DecidableEq, Repr

/-- The engine made by `engine.New(cfg)`. -/
def Engine.New (cfg : EngineConfig) : Engine :=
  { cfg := cfg, cmd := none, exitCh := none, ready := false, stopping := false }

/-- The method `Engine.IsReady()`. -/
def Engine.IsReady (e : Engine) : Bool := e.ready

/-- The goroutine `e.exitCh <- cmd.Wait()`: the process has exited, `Wait` returned `waitErr`,
and the value is put on the exit channel (whose capacity is 1). -/
def Engine.processExited (e : Engine) (waitErr : Option GoError) : Engine :=
  match e.exitCh with
  | some ch => if ch.buf.length < 1 then { e with exitCh := some { buf := ch.buf ++ [waitErr] } } else e
  | none => e

/-- The error made by `errors.New("llama-server killed after stop timeout")`. -/
def killedAfterStopTimeout : GoError := GoError.New "llama-server killed after stop timeout"

/-- What an evaluation of `Stop` yields: the engine afterwards, the value returned (`none`
while `Stop` is still blocked in its `select`; `some none` is a nil error), and whether
`cmd.Process.Kill()` was called. -/
structure Stopped where
  engine : Engine
  result : Option (Option GoError)
  killed : Bool
  deriving DecidableEq, Repr

/-- The method `Engine.Stop()` entered at instant `t0`, its `select` being evaluated at instant
`now`. The engine `e` is the one `Stop` finds on entry: `e.cmd` and `e.exitCh` are the
values it captures under the lock, and the buffer of `e.exitCh` is what that captured
channel holds at `now`. When a value can be received from `exitCh` and the stop timer has
fired as well, the runtime picks a case (`pickTimer`). -/
def Stop (e : Engine) (t0 now : Int) (pickTimer : Bool) : Stopped :=
  let e := { e with stopping := true }
  match e.cmd with
  | none => { engine := e, result := some none, killed := false }
  | some cmd =>
    if cmd.started = false then { engine := e, result := some none, killed := false }
    else
      match e.exitCh with
      | none => { engine := e, result := some none, killed := false }
      | some exitCh =>
        let cmd := { cmd with interrupted := true }
        let e := { e with cmd := some cmd }
        let timerFired : Bool := decide (t0 + e.cfg.StopTimeout ≤ now)
        let kill : Stopped :=
          { engine := { e with cmd := some { cmd with killed := true } },
            result := some (some killedAfterStopTimeout), killed := true }
        match exitCh.buf with
        | err :: rest =>
          if timerFired && pickTimer then kill
          else { engine := { e with exitCh := some { buf := rest } }, result := some err,
                 killed := false }
        | [] =>
          if timerFired then kill
          else { engine := e, result := none, killed := false }

/-- How one call of `startOnce` unfolds. -/
inductive StartEvent where
  /-- The call `cmd.StdoutPipe()` fails. -/
  | stdoutPipeErr (err : GoError)
  /-- The call `cmd.StderrPipe()` fails. -/
  | stderrPipeErr (err : GoError)
  /-- The call `cmd.Start()` fails. -/
  | startErr (err : GoError)
  /-- A line matching the readiness pattern is read first. -/
  | ready
  /-- The start timeout elapses first. -/
  | timeout
  /-- The context is done first, with `ctx.Err()` equal to `err`. -/
  | ctxDone (err : GoError)
  deriving DecidableEq, Repr

/-- The error made by `fmt.Errorf("llama-server readiness timeout after %s", d)`. -/
def readinessTimeout (d : Int) : GoError :=
  GoError.Errorf "llama-server readiness timeout after %s" d

/-- The value `startOnce` returns. -/
def startResult (cfg : EngineConfig) : StartEvent → Option GoError
  | StartEvent.stdoutPipeErr err => some err
  | StartEvent.stderrPipeErr err => some err
  | StartEvent.startErr err => some err
  | StartEvent.ready => none
  | StartEvent.timeout => some (readinessTimeout cfg.StartTimeout)
  | StartEvent.ctxDone err => some err

/-- The method `Engine.startOnce(ctx)`: the engine afterwards and the error returned. -/
def startOnce (e : Engine) (ev : StartEvent) : Engine × Option GoError :=
  match ev with
  | StartEvent.stdoutPipeErr _ => (e, startResult e.cfg ev)
  | StartEvent.stderrPipeErr _ => (e, startResult e.cfg ev)
  | _ =>
    let cmd : Cmd := { started := false, interrupted := false, killed := false }
    let e := { e with cmd := some cmd, exitCh := some { buf := [] }, ready := false }
    match ev with
    | StartEvent.startErr _ => (e, startResult e.cfg ev)
    | StartEvent.ready =>
      ({ e with cmd := some { cmd with started := true }, ready := true }, startResult e.cfg ev)
    | _ =>
      ({ e with cmd := some { cmd with started := true, killed := true } }, startResult e.cfg ev)

/-- Where the loop of `run` stands. -/
inductive RunLoc where
  /-- At the head of the `for` loop. -/
  | loopHead
  /-- Blocked in `exitErr := <-e.exitCh`. -/
  | waitExit
  /-- In `time.Sleep(e.cfg.RestartBackoff)` after a failed start. -/
  | sleepAfterFail
  /-- In `time.Sleep(e.cfg.RestartBackoff)` after the process exited. -/
  | sleepAfterExit
  /-- The function `run` has returned. -/
  | returned
  deriving DecidableEq, Repr

/-- The state of the goroutine `run`: its place, its variable `firstStart`, the values it has
sent on `readyCh`, and the number of times it has called `startOnce`. -/
structure RunState where
  loc : RunLoc
  firstStart : Bool
  readySent : List (Option GoError)
  spawned : Nat
  deriving DecidableEq, Repr

/-- The goroutine `run` when `Start` launches it. -/
def RunState.init : RunState :=
  { loc := RunLoc.loopHead, firstStart := true, readySent := [], spawned := 0 }

/-- The capacity of `readyCh`, made by `make(chan error, 1)` in `Start`. -/
def readyChCap : Nat := 1

/-- What the surroundings decide during one step of `run`. -/
structure RunInput where
  /-- The value of `ctx.Err()` at the head of the loop. -/
  ctxErr : Option GoError
  /-- How `startOnce` unfolds if it is called. -/
  start : StartEvent
  /-- The value of `ctx.Err()` after a failed start. -/
  ctxErrAfter : Option GoError
  deriving DecidableEq, Repr

/-- One step of the method `Engine.run(ctx, readyCh)`: from the head of the loop up to the next
blocking point, the receive on `e.exitCh`, or the end of a sleep. -/
def runStep (e : Engine) (st : RunState) (inp : RunInput) : Engine × RunState :=
  match st.loc with
  | RunLoc.loopHead =>
    match inp.ctxErr with
    | some err =>
      (e, { st with
            loc := RunLoc.returned,
            readySent := if st.firstStart then st.readySent ++ [some err] else st.readySent })
    | none =>
      let (e, err) := startOnce e inp.start
      let st := { st with spawned := st.spawned + 1 }
      let st :=
        if st.firstStart then { st with readySent := st.readySent ++ [err], firstStart := false }
        else st
      match err with
      | some _ =>
        if inp.ctxErrAfter.isSome then (e, { st with loc := RunLoc.returned })
        else (e, { st with loc := RunLoc.sleepAfterFail })
      | none => (e, { st with loc := RunLoc.waitExit })
  | RunLoc.waitExit =>
    match e.exitCh with
    | some { buf := _ :: rest } =>
      let e := { e with exitCh := some { buf := rest } }
      if e.stopping then (e, { st with loc := RunLoc.returned })
      else ({ e with ready := false }, { st with loc := RunLoc.sleepAfterExit })
    | _ => (e, st)
  | RunLoc.sleepAfterFail => (e, { st with loc := RunLoc.loopHead })
  | RunLoc.sleepAfterExit => (e, { st with loc := RunLoc.loopHead })
  | RunLoc.returned => (e, st)

/-- A step of the supervisor as a whole: the loop `run` moves, the supervised process exits,
or `Stop` is called at instant `t`. A call of `Stop` is evaluated on entry, when the `cmd`
and `exitCh` it captures are the current ones; what a blocked `Stop` does later concerns
the generation it captured only (the value it may take from that exit channel then never
reaches `run`, as in a run without that `exited` step). -/
inductive SysStep where
  | run (inp : RunInput)
  | exited (waitErr : Option GoError)
  | stop (t : Int) (pickTimer : Bool)
  deriving DecidableEq, Repr

/-- Effect of a step on the engine and on the goroutine `run`. -/
def sysStep (c : Engine × RunState) : SysStep → Engine × RunState
  | SysStep.run inp => runStep c.1 c.2 inp
  | SysStep.exited waitErr => (c.1.processExited waitErr, c.2)
  | SysStep.stop t pickTimer => ((Stop c.1 t t pickTimer).engine, c.2)

/-- The supervisor after `Start` launched `run` on the engine `e` and the steps `steps` took place. -/
def supervise (e : Engine) (steps : List SysStep) : Engine × RunState :=
  steps.foldl sysStep (e, RunState.init)

/-- The method `Engine.Start(ctx)`: the value received from `readyCh` (`none` while nothing was
sent; `some none` is a nil error). -/
def Start (e : Engine) (steps : List SysStep) : Option (Option GoError) :=
  (supervise e steps).2.readySent.head?

/-- The input of the first step taken by `run` among `steps`, if any. -/
def firstRunInput : List SysStep → Option RunInput
  | [] => none
  | SysStep.run inp :: _ => some inp
  | _ :: rest => firstRunInput rest

/-- The outcome of the first generation: the context's error when it is already done at the
head of the loop, else what the first `startOnce` returns. -/
def firstOutcome (cfg : EngineConfig) (inp : RunInput) : Option GoError :=
  match inp.ctxErr with
  | some err => some err
  | none => startResult cfg inp.start

/-! ## Concrete inputs used to exercise the theorems -/

/-- An upstream that answers every request with `resp`. -/
def constClient (resp : Response) : UpstreamRequest → Except GoError Response :=
  fun _ => Except.ok resp

/-- A handler over a fresh scheduler of capacity 1 whose upstream always answers `resp`. -/
def sampleHandler (resp : Response) : ProxyHandler :=
  { sched := New 1 60,
    baseURL := { base := "http://127.0.0.1:8080", path := "", rawQuery := "" },
    client := constClient resp }

/-- An inbound chat-completion request with a two-chunk body. -/
def sampleRequest : Request :=
  { ctx := background, method := "POST", path := "/v1/chat/completions", rawQuery := "",
    header := [("Content-Type", ["application/json"]), ("Host", ["gateway"])],
    body := { chunks := [[123], [125]], err := none } }

/-- Surroundings in which `Acquire` is evaluated on entry and the body parses to the streaming
flag `stream`. -/
def sampleEnv (stream : Bool) : Env :=
  { t0 := 0, now := 0, timerFirst := false, pickDone := false,
    unmarshal := fun _ => some stream, newRequestErr := none, isFlusher := true }

/-- An upstream event-stream response (content type in mixed case). -/
def sseResponse : Response :=
  { statusCode := 200,
    header := [("Content-Type", ["Text/Event-Stream; charset=utf-8"]), ("X-Request-Id", ["7", "8"])],
    body := { chunks := [[100, 97], [116, 97]], err := none } }

/-- An upstream JSON response that also carries a `Host` header. -/
def jsonResponse : Response :=
  { statusCode := 200,
    header := [("Content-Type", ["application/json"]), ("Host", ["upstream"]),
               ("X-Request-Id", ["7", "8"])],
    body := { chunks := [[123], [125]], err := none } }

/-! ## Theorems: scheduler -/

theorem selectSendOrDone_ok_iff (s : Scheduler) (d : Option GoError) (p : Bool)
    (f : GoError → GoError) (s' : Scheduler) :
    selectSendOrDone s d p f = Outcome.ok s' ↔
      s.sem.len < s.sem.cap ∧ s' = { s with sem := { s.sem with len := s.sem.len + 1 } } ∧
        (d = none ∨ p = false) := by
  unfold selectSendOrDone Chan.send
  by_cases h : s.sem.len < s.sem.cap
  · cases d with
    | none => simp [h, eq_comm]
    | some e => cases p <;> simp [h, eq_comm]
  · cases d <;> simp [h]

theorem Acquire_ok_held (s s' : Scheduler) (ctx : Context) (t0 now : Int) (tf pd : Bool)
    (h : Acquire s ctx t0 now tf pd = Outcome.ok s') :
    s.sem.len < s.sem.cap ∧ s'.sem.len = s.sem.len + 1 ∧ s'.sem.cap = s.sem.cap ∧
      s'.waitTimeout = s.waitTimeout := by
  unfold Acquire at h
  split at h
  · obtain ⟨h1, h2, -⟩ := (selectSendOrDone_ok_iff _ _ _ _ _).1 h
    subst h2; exact ⟨h1, rfl, rfl, rfl⟩
  · obtain ⟨h1, h2, -⟩ := (selectSendOrDone_ok_iff _ _ _ _ _).1 h
    subst h2; exact ⟨h1, rfl, rfl, rfl⟩

theorem applyOp_inv (s : Scheduler) (op : Op) (h : s.sem.len ≤ s.sem.cap) :
    (applyOp s op).sem.len ≤ (applyOp s op).sem.cap ∧ (applyOp s op).sem.cap = s.sem.cap := by
  cases op with
  | acquire ctx t0 now tf pd =>
    simp only [applyOp]
    cases hA : Acquire s ctx t0 now tf pd with
    | ok s' =>
      obtain ⟨h1, h2, h3, -⟩ := Acquire_ok_held _ _ _ _ _ _ _ hA
      simp only
      omega
    | err e => exact ⟨h, rfl⟩
    | blocked => exact ⟨h, rfl⟩
  | release =>
    simp only [applyOp, Release, Chan.recv]
    by_cases h0 : 0 < s.sem.len
    · simp only [h0, if_true]
      show s.sem.len - 1 ≤ s.sem.cap ∧ True
      exact ⟨by omega, trivial⟩
    · simp only [h0, if_false]
      exact ⟨h, trivial⟩

theorem foldl_applyOp_inv (ops : List Op) (s : Scheduler) (h : s.sem.len ≤ s.sem.cap) :
    (ops.foldl applyOp s).sem.len ≤ (ops.foldl applyOp s).sem.cap ∧
      (ops.foldl applyOp s).sem.cap = s.sem.cap := by
  induction ops generalizing s with
  | nil => exact ⟨h, rfl⟩
  | cons op ops ih =>
    obtain ⟨h1, h2⟩ := applyOp_inv s op h
    obtain ⟨h3, h4⟩ := ih (applyOp s op) h1
    exact ⟨h3, h4.trans h2⟩

/-- C1: on a scheduler built by `New`, after every step of every finite sequence of
`Acquire` and `Release` steps (every prefix `ops.take k` of the sequence), the number
of held slots lies between 0 and the capacity, and the capacity is the one fixed by
`New`. -/
theorem C1_held_within_capacity (maxConcurrency waitTimeout : Int) (ops : List Op) (k : Nat) :
    0 ≤ ((ops.take k).foldl applyOp (New maxConcurrency waitTimeout)).held ∧
    ((ops.take k).foldl applyOp (New maxConcurrency waitTimeout)).held ≤
      (New maxConcurrency waitTimeout).capacity ∧
    ((ops.take k).foldl applyOp (New maxConcurrency waitTimeout)).capacity =
      (New maxConcurrency waitTimeout).capacity := by
  obtain ⟨h1, h2⟩ := foldl_applyOp_inv (ops.take k) (New maxConcurrency waitTimeout)
    (by simp [New])
  refine ⟨Nat.zero_le _, ?_, h2⟩
  unfold Scheduler.held Scheduler.capacity
  omega

theorem Acquire_at_entry (s : Scheduler) (ctx : Context) (t : Int) (tf pd : Bool)
    (hfree : s.sem.len < s.sem.cap) (hctx : ctx.Err t = none) :
    Acquire s ctx t t tf pd =
      Outcome.ok { s with sem := { s.sem with len := s.sem.len + 1 } } := by
  unfold Acquire
  split
  · simp [selectSendOrDone, Chan.send, hfree, hctx]
  · rename_i hwt
    have hchild : (WithTimeout ctx t s.waitTimeout tf).Err t = none := by
      unfold WithTimeout
      cases hd : ctx.doneAt with
      | none =>
        simp only [Context.Err]
        rw [if_neg (by omega)]
      | some t' =>
        simp only
        split
        · exact hctx
        · simp only [Context.Err]
          rw [if_neg (by omega)]
    simp [selectSendOrDone, Chan.send, hfree, hchild]

theorem acquireAll_ok (calls : List AcquireCall) (s : Scheduler)
    (hroom : s.sem.len + calls.length ≤ s.sem.cap)
    (hctx : ∀ c ∈ calls, c.ctx.Err c.t = none) :
    acquireAll calls s =
      some { s with sem := { s.sem with len := s.sem.len + calls.length } } := by
  induction calls generalizing s with
  | nil => rfl
  | cons c calls ih =>
    have hlen : (c :: calls).length = calls.length + 1 := rfl
    rw [hlen] at hroom
    have h1 := Acquire_at_entry s c.ctx c.t c.timerFirst c.pickDone (by omega)
      (hctx c (List.mem_cons_self _ _))
    simp only [acquireAll, h1]
    rw [ih _ (by simp only; omega) (fun c' hc' => hctx c' (List.mem_cons_of_mem _ hc'))]
    simp only [hlen]
    congr 3
    omega

theorem select_full_timer (s : Scheduler) (d now : Int) (pd : Bool)
    (hsend : s.sem.send = none) :
    selectSendOrDone s
        (Context.Err { doneAt := some d, cause := ContextErr.DeadlineExceeded } now) pd
        (fun e => if e.isDeadlineExceeded then queueWaitTimeout else e) = Outcome.blocked ∨
      selectSendOrDone s
        (Context.Err { doneAt := some d, cause := ContextErr.DeadlineExceeded } now) pd
        (fun e => if e.isDeadlineExceeded then queueWaitTimeout else e) =
        Outcome.err queueWaitTimeout := by
  by_cases h : d ≤ now
  · right
    simp [selectSendOrDone, hsend, Context.Err, h, ContextErr.toError,
      GoError.isDeadlineExceeded]
  · left
    simp [selectSendOrDone, hsend, Context.Err, h]

theorem Acquire_full (s : Scheduler) (ctx : Context) (t0 now : Int) (tf pd : Bool)
    (hfull : s.sem.len = s.sem.cap) (hctx : ctx.Err now = none) :
    Acquire s ctx t0 now tf pd = Outcome.blocked ∨
      Acquire s ctx t0 now tf pd = Outcome.err queueWaitTimeout := by
  have hsend : s.sem.send = none := by simp [Chan.send, hfull]
  unfold Acquire
  split
  · left; simp [selectSendOrDone, hsend, hctx]
  · unfold WithTimeout
    cases hd : ctx.doneAt with
    | none => exact select_full_timer s _ now pd hsend
    | some t' =>
      simp only
      split
      · left; simp [selectSendOrDone, hsend, hctx]
      · exact select_full_timer s _ now pd hsend

/-- C2 (fails as stated): with `maxConcurrency = 0` the scheduler made by `New` holds
`maxConcurrency = 0` slots from the start, and yet the next `Acquire` (the first one)
returns nil at once. -/
theorem C2_counterexample_zero_capacity :
    (New 0 5).held = 0 ∧
      Acquire (New 0 5) background 0 0 false false =
        Outcome.ok { sem := { cap := 1, len := 1 }, waitTimeout := 5 } := by
  decide

/-- C2 (amended): the capacity of `New(maxConcurrency, waitTimeout)` is `max(1, maxConcurrency)`;
for every `N` up to that capacity, `N` calls of `Acquire` in a row with un-cancelled
signals all return nil at the instant they are entered, leaving `N` slots held; and once
as many slots as the capacity are held, an `Acquire` with an un-cancelled signal does not
succeed: it is blocked or it returns the wait-timeout error. -/
theorem C2_first_acquires_succeed_then_full_blocks (maxConcurrency waitTimeout : Int)
    (calls : List AcquireCall) (hN : calls.length ≤ (New maxConcurrency waitTimeout).capacity)
    (hctx : ∀ c ∈ calls, c.ctx.Err c.t = none) :
    (New maxConcurrency waitTimeout).capacity = (max 1 maxConcurrency).toNat ∧
    (∃ s, acquireAll calls (New maxConcurrency waitTimeout) = some s ∧
      s.held = calls.length ∧ s.capacity = (New maxConcurrency waitTimeout).capacity ∧
      s.waitTimeout = waitTimeout) ∧
    (∀ (s : Scheduler) (ctx : Context) (t0 now : Int) (tf pd : Bool),
      s.held = s.capacity → ctx.Err now = none →
        Acquire s ctx t0 now tf pd = Outcome.blocked ∨
          Acquire s ctx t0 now tf pd = Outcome.err queueWaitTimeout) := by
  refine ⟨?_, ?_, ?_⟩
  · unfold New Scheduler.capacity
    by_cases h : maxConcurrency < 1
    · simp only [h, if_true]
      rw [max_eq_left (by omega)]
    · simp only [h, if_false]
      rw [max_eq_right (by omega)]
  · refine ⟨_, acquireAll_ok calls (New maxConcurrency waitTimeout) ?_ hctx, ?_, rfl, rfl⟩
    · unfold Scheduler.capacity at hN
      simpa [New] using hN
    · simp [Scheduler.held, New]
  · intro s ctx t0 now tf pd hfull hc
    exact Acquire_full s ctx t0 now tf pd hfull hc

/-- Witness of C2 (amended): capacity 2, two calls with the background context. -/
theorem C2_first_acquires_succeed_then_full_blocks_witness :
    (New 2 5).capacity = (max 1 (2 : Int)).toNat ∧
    (∃ s, acquireAll [⟨background, 0, false, false⟩, ⟨background, 1, false, true⟩] (New 2 5) =
        some s ∧
      s.held = 2 ∧ s.capacity = (New 2 5).capacity ∧ s.waitTimeout = 5) ∧
    (∀ (s : Scheduler) (ctx : Context) (t0 now : Int) (tf pd : Bool),
      s.held = s.capacity → ctx.Err now = none →
        Acquire s ctx t0 now tf pd = Outcome.blocked ∨
          Acquire s ctx t0 now tf pd = Outcome.err queueWaitTimeout) :=
  C2_first_acquires_succeed_then_full_blocks 2 5
    [⟨background, 0, false, false⟩, ⟨background, 1, false, true⟩] (by decide) (by decide)

/-- C3 (the code at the failing input): a scheduler with wait timeout 60 whose only slot is
held; the caller's context ends at instant 1 because of its own deadline. `Acquire`, entered
at instant 0 and evaluated at instant 1, returns "queue wait timeout" although the wait
timeout has not elapsed (`0 + 60 > 1`) and the caller's `ctx.Err()` is `DeadlineExceeded`;
with the wait timeout disabled, the same call returns the caller's error. -/
theorem C3_caller_deadline_reported_as_wait_timeout :
    applyOp (New 1 60) (Op.acquire background 0 0 false false) =
        { sem := { cap := 1, len := 1 }, waitTimeout := 60 } ∧
    (1 : Int) < 0 + 60 ∧
    Context.Err { doneAt := some 1, cause := ContextErr.DeadlineExceeded } 1 =
        some GoError.DeadlineExceeded ∧
    Acquire { sem := { cap := 1, len := 1 }, waitTimeout := 60 }
        { doneAt := some 1, cause := ContextErr.DeadlineExceeded } 0 1 false false =
      Outcome.err queueWaitTimeout ∧
    Acquire { sem := { cap := 1, len := 1 }, waitTimeout := 0 }
        { doneAt := some 1, cause := ContextErr.DeadlineExceeded } 0 1 false false =
      Outcome.err GoError.DeadlineExceeded := by
  decide

/-- C4: on a scheduler whose wait timeout is zero or negative, `Acquire` never returns the
wait-timeout error; it returns nil when a slot is free and the signal has not fired, it
returns nil only when a slot is free, every error it returns is the signal's `ctx.Err()`
(so the signal has fired), it returns that error when the signal has fired and no slot is
free, and it is blocked when no slot is free and the signal has not fired. -/
theorem C4_no_wait_timeout_when_disabled (s : Scheduler) (ctx : Context) (t0 now : Int)
    (tf pd : Bool) (hwt : s.waitTimeout ≤ 0) :
    Acquire s ctx t0 now tf pd ≠ Outcome.err queueWaitTimeout ∧
    (s.held < s.capacity → ctx.Err now = none →
      Acquire s ctx t0 now tf pd =
        Outcome.ok { s with sem := { s.sem with len := s.sem.len + 1 } }) ∧
    (∀ s', Acquire s ctx t0 now tf pd = Outcome.ok s' → s.held < s.capacity) ∧
    (∀ e, Acquire s ctx t0 now tf pd = Outcome.err e → ctx.Err now = some e) ∧
    (∀ e, ¬ s.held < s.capacity → ctx.Err now = some e →
      Acquire s ctx t0 now tf pd = Outcome.err e) ∧
    (¬ s.held < s.capacity → ctx.Err now = none →
      Acquire s ctx t0 now tf pd = Outcome.blocked) := by
  have hA : Acquire s ctx t0 now tf pd = selectSendOrDone s (ctx.Err now) pd (fun e => e) := by
    unfold Acquire; rw [if_pos hwt]
  have herr : ∀ e, ctx.Err now = some e → e ≠ queueWaitTimeout := by
    intro e he
    unfold Context.Err at he
    cases hd : ctx.doneAt with
    | none => simp [hd] at he
    | some t =>
      simp only [hd] at he
      split at he
      · cases hc : ctx.cause <;> simp [hc, ContextErr.toError] at he <;> subst he <;>
          simp [queueWaitTimeout]
      · simp at he
  have hsel : ∀ e, selectSendOrDone s (ctx.Err now) pd (fun e => e) = Outcome.err e →
      ctx.Err now = some e := by
    intro e h
    unfold selectSendOrDone at h
    split at h <;> simp_all
    split at h <;> simp_all
  rw [hA]
  unfold Scheduler.held Scheduler.capacity
  refine ⟨?_, ?_, ?_, hsel, ?_, ?_⟩
  · intro h
    exact herr _ (hsel _ h) rfl
  · intro hfree hc
    simp [selectSendOrDone, Chan.send, hfree, hc]
  · intro s' h
    exact ((selectSendOrDone_ok_iff _ _ _ _ _).1 h).1
  · intro e hfree hc
    simp [selectSendOrDone, Chan.send, hfree, hc]
  · intro hfree hc
    simp [selectSendOrDone, Chan.send, hfree, hc]

/-- Witness of C4: wait timeout 0, one free slot, background context. -/
theorem C4_no_wait_timeout_when_disabled_witness :
    Acquire (New 1 0) background 0 7 false false ≠ Outcome.err queueWaitTimeout ∧
    ((New 1 0).held < (New 1 0).capacity → background.Err 7 = none →
      Acquire (New 1 0) background 0 7 false false =
        Outcome.ok { New 1 0 with sem := { (New 1 0).sem with len := (New 1 0).sem.len + 1 } }) ∧
    (∀ s', Acquire (New 1 0) background 0 7 false false = Outcome.ok s' →
      (New 1 0).held < (New 1 0).capacity) ∧
    (∀ e, Acquire (New 1 0) background 0 7 false false = Outcome.err e →
      background.Err 7 = some e) ∧
    (∀ e, ¬ (New 1 0).held < (New 1 0).capacity → background.Err 7 = some e →
      Acquire (New 1 0) background 0 7 false false = Outcome.err e) ∧
    (¬ (New 1 0).held < (New 1 0).capacity → background.Err 7 = none →
      Acquire (New 1 0) background 0 7 false false = Outcome.blocked) :=
  C4_no_wait_timeout_when_disabled (New 1 0) background 0 7 false false (by decide)

/-! ## Theorems: proxy handler -/

theorem Release_after_Acquire (s0 s : Scheduler) (ctx : Context) (t0 now : Int) (tf pd : Bool)
    (h : Acquire s0 ctx t0 now tf pd = Outcome.ok s) : Release s = some s0 := by
  have hs : s = { s0 with sem := { s0.sem with len := s0.sem.len + 1 } } := by
    unfold Acquire at h
    split at h
    · exact ((selectSendOrDone_ok_iff _ _ _ _ _).1 h).2.1
    · exact ((selectSendOrDone_ok_iff _ _ _ _ _).1 h).2.1
  subst hs
  simp [Release, Chan.recv]

theorem deferredRelease_after_Acquire (s0 s : Scheduler) (ctx : Context) (t0 now : Int)
    (tf pd : Bool) (w : ResponseWriter) (tr : List Event)
    (h : Acquire s0 ctx t0 now tf pd = Outcome.ok s) :
    deferredRelease s w tr =
      some { w := w, sched := s0, trace := Event.Acquire :: tr ++ [Event.Release] } := by
  simp [deferredRelease, Release_after_Acquire s0 s ctx t0 now tf pd h]

/-- C5: for every execution of `handleChatCompletions`. While `Acquire` is blocked the handler
has not returned. If `Acquire` fails, the handler answers through
`writeJSON(w, 429, {"error": "queue timeout"})` (on a response not yet committed: status 429,
content type `application/json`, that JSON body), issues no upstream request, never calls
`Release`, and leaves the scheduler as it was. If `Acquire` succeeds, the handler returns,
`Release` is called exactly once whatever the exit path, and the scheduler (hence the number
of held slots) is the same after the handler as before it. -/
theorem C5_release_exactly_once (h : ProxyHandler) (w : ResponseWriter) (r : Request)
    (env : Env) :
    match Acquire h.sched r.ctx env.t0 env.now env.timerFirst env.pickDone with
    | Outcome.blocked => handleChatCompletions h w r env = none
    | Outcome.err _ =>
      ∃ res, handleChatCompletions h w r env = some res ∧
        res.w = writeJSON w 429 "error" "queue timeout" ∧
        (w.wrote = none →
          res.w.wrote = some (429, w.header.Set "Content-Type" "application/json") ∧
          (w.header.Set "Content-Type" "application/json").values "Content-Type" =
            ["application/json"] ∧
          res.w.body = w.body ++ jsonObject "error" "queue timeout") ∧
        res.trace.countP Event.isDo = 0 ∧
        res.trace.countP Event.isRelease = 0 ∧
        res.sched = h.sched
    | Outcome.ok _ =>
      ∃ res, handleChatCompletions h w r env = some res ∧
        res.trace.countP Event.isRelease = 1 ∧
        res.sched = h.sched ∧
        res.sched.held = h.sched.held := by
  cases hA : Acquire h.sched r.ctx env.t0 env.now env.timerFirst env.pickDone with
  | blocked => simp [handleChatCompletions, hA]
  | err e =>
    refine ⟨{ w := writeJSON w 429 "error" "queue timeout", sched := h.sched,
              trace := [Event.Acquire] },
      by simp only [handleChatCompletions, hA], rfl, ?_, rfl, rfl, rfl⟩
    intro hw
    refine ⟨?_, ?_, ?_⟩
    · simp [writeJSON, ResponseWriter.Write, ResponseWriter.WriteHeader, hw]
    · have hk : CanonicalHeaderKey "Content-Type" = "Content-Type" := by decide
      simp [Header.Set, Header.store, Header.values, Header.lookup, hk]
    · simp [writeJSON, ResponseWriter.Write, ResponseWriter.WriteHeader, hw]
  | ok s =>
    have hd := fun w' tr =>
      deferredRelease_after_Acquire h.sched s r.ctx env.t0 env.now env.timerFirst env.pickDone
        w' tr hA
    simp only [handleChatCompletions, hA]
    cases hR : ReadAll r.body with
    | error e => exact ⟨_, hd _ _, by simp [Event.isRelease], rfl, rfl⟩
    | ok bodyBytes =>
      simp only
      cases hN : env.newRequestErr with
      | some e => exact ⟨_, hd _ _, by simp [Event.isRelease], rfl, rfl⟩
      | none =>
        simp only
        split
        · exact ⟨_, hd _ _, by simp [Event.isRelease], rfl, rfl⟩
        · split
          · exact ⟨_, hd _ _, by simp [Event.isRelease], rfl, rfl⟩
          · exact ⟨_, hd _ _, by simp [Event.isRelease], rfl, rfl⟩

/-! ## Theorems: header maps -/

theorem Header.delete_cons (k0 : String) (v : List String) (rest : Header) (k : String) :
    Header.delete ((k0, v) :: rest) k =
      if k0 = k then Header.delete rest k else (k0, v) :: Header.delete rest k := by
  by_cases hk : k0 = k <;> simp [Header.delete, List.filter_cons, hk]

theorem Header.lookup_cons (k0 : String) (v : List String) (rest : Header) (k : String) :
    Header.lookup ((k0, v) :: rest) k = if k0 = k then some v else Header.lookup rest k := rfl

theorem Header.lookup_delete_same (h : Header) (k : String) : (h.delete k).lookup k = none := by
  induction h with
  | nil => rfl
  | cons p rest ih =>
    obtain ⟨k', v⟩ := p
    rw [Header.delete_cons]
    by_cases hk : k' = k
    · rw [if_pos hk]; exact ih
    · rw [if_neg hk, Header.lookup_cons, if_neg hk]; exact ih

theorem Header.lookup_delete_ne (h : Header) (k k' : String) (hne : k' ≠ k) :
    (h.delete k).lookup k' = h.lookup k' := by
  induction h with
  | nil => rfl
  | cons p rest ih =>
    obtain ⟨k0, v⟩ := p
    rw [Header.delete_cons, Header.lookup_cons]
    by_cases hk : k0 = k
    · have hk' : k0 ≠ k' := fun h' => hne (h'.symm.trans hk)
      rw [if_pos hk, if_neg hk']; exact ih
    · rw [if_neg hk, Header.lookup_cons]
      by_cases hk' : k0 = k'
      · rw [if_pos hk', if_pos hk']
      · rw [if_neg hk', if_neg hk']; exact ih

theorem Header.lookup_store_same (h : Header) (k : String) (vs : List String) :
    (h.store k vs).lookup k = some vs := by
  simp [Header.store, Header.lookup_cons]

theorem Header.lookup_store_ne (h : Header) (k k' : String) (vs : List String) (hne : k' ≠ k) :
    (h.store k vs).lookup k' = h.lookup k' := by
  rw [Header.store, Header.lookup_cons, if_neg (Ne.symm hne)]
  exact Header.lookup_delete_ne h k k' hne

theorem Header.lookup_eq_none_of_not_mem (h : Header) (k : String) (hk : k ∉ h.keys) :
    h.lookup k = none := by
  induction h with
  | nil => rfl
  | cons p rest ih =>
    obtain ⟨k0, v⟩ := p
    simp only [Header.keys, List.map_cons, List.mem_cons, not_or] at hk
    rw [Header.lookup_cons, if_neg (Ne.symm hk.1)]
    exact ih hk.2

theorem Header.values_Add_same (h : Header) (k v : String) (hk : CanonicalHeaderKey k = k) :
    (h.Add k v).values k = h.values k ++ [v] := by
  simp [Header.Add, Header.values, hk, Header.lookup_store_same]

theorem Header.lookup_Add_ne (h : Header) (k k' v : String) (hk : CanonicalHeaderKey k = k)
    (hne : k' ≠ k) : (h.Add k v).lookup k' = h.lookup k' := by
  simp only [Header.Add, hk]
  exact Header.lookup_store_ne h k k' _ hne

theorem Header.values_addAll_same (vs : List String) (h : Header) (k : String)
    (hk : CanonicalHeaderKey k = k) :
    (vs.foldl (fun dst vv => Header.Add dst k vv) h).values k = h.values k ++ vs := by
  induction vs generalizing h with
  | nil => simp
  | cons v vs ih =>
    rw [List.foldl_cons, ih, Header.values_Add_same h k v hk, List.append_assoc]
    rfl

theorem Header.lookup_addAll_ne (vs : List String) (h : Header) (k k' : String)
    (hk : CanonicalHeaderKey k = k) (hne : k' ≠ k) :
    (vs.foldl (fun dst vv => Header.Add dst k vv) h).lookup k' = h.lookup k' := by
  induction vs generalizing h with
  | nil => rfl
  | cons v vs ih =>
    rw [List.foldl_cons, ih, Header.lookup_Add_ne h k k' v hk hne]

/-- The loop of `copyHeaders` without its test on the name: every entry of `src` is added. -/
theorem addEntries_values (src dst : Header) (hc : src.Canonical) (hnd : src.keys.Nodup)
    (k : String) :
    (src.foldl (fun dst kv => kv.2.foldl (fun dst vv => Header.Add dst kv.1 vv) dst) dst).values k
      = dst.values k ++ src.values k := by
  induction src generalizing dst with
  | nil => simp [Header.values, Header.lookup]
  | cons p rest ih =>
    obtain ⟨k0, v0⟩ := p
    have hk0 : CanonicalHeaderKey k0 = k0 := hc k0 (by simp [Header.keys])
    have hc' : Header.Canonical rest := fun k' hk' => hc k' (by
      simp only [Header.keys, List.map_cons, List.mem_cons]; exact Or.inr hk')
    simp only [Header.keys, List.map_cons, List.nodup_cons] at hnd
    rw [List.foldl_cons, ih _ hc' hnd.2]
    by_cases hk : k0 = k
    · subst hk
      have hrest : Header.values rest k0 = [] := by
        simp [Header.values, Header.lookup_eq_none_of_not_mem rest k0 hnd.1]
      rw [hrest, List.append_nil, Header.values_addAll_same v0 dst k0 hk0]
      simp [Header.values, Header.lookup_cons]
    · have h1 : (v0.foldl (fun dst vv => Header.Add dst k0 vv) dst).values k = dst.values k := by
        simp only [Header.values, Header.lookup_addAll_ne v0 dst k0 k hk0 (Ne.symm hk)]
      rw [h1]
      simp [Header.values, Header.lookup_cons, hk]

theorem addEntries_lookup_not_mem (src dst : Header) (hc : src.Canonical) (k : String)
    (hk : k ∉ src.keys) :
    (src.foldl (fun dst kv => kv.2.foldl (fun dst vv => Header.Add dst kv.1 vv) dst) dst).lookup k
      = dst.lookup k := by
  induction src generalizing dst with
  | nil => rfl
  | cons p rest ih =>
    obtain ⟨k0, v0⟩ := p
    have hk0 : CanonicalHeaderKey k0 = k0 := hc k0 (by simp [Header.keys])
    have hc' : Header.Canonical rest := fun k' hk' => hc k' (by
      simp only [Header.keys, List.map_cons, List.mem_cons]; exact Or.inr hk')
    simp only [Header.keys, List.map_cons, List.mem_cons, not_or] at hk
    rw [List.foldl_cons, ih _ hc' hk.2]
    exact Header.lookup_addAll_ne v0 dst k0 k hk0 hk.1

theorem copyHeaders_eq_filter (src dst : Header) :
    copyHeaders dst src =
      (src.filter (fun kv => !EqualFold kv.1 "Host")).foldl
        (fun dst kv => kv.2.foldl (fun dst vv => Header.Add dst kv.1 vv) dst) dst := by
  unfold copyHeaders
  induction src generalizing dst with
  | nil => rfl
  | cons p rest ih =>
    rw [List.foldl_cons, List.filter_cons]
    by_cases hp : EqualFold p.1 "Host" = true
    · simp only [hp, if_true, Bool.not_true, Bool.false_eq_true, if_false]
      exact ih dst
    · simp only [hp, if_false, Bool.not_eq_true] at hp ⊢
      simp only [hp, Bool.not_false, if_true, List.foldl_cons, Bool.false_eq_true, if_false]
      exact ih _

theorem Header.lookup_filter (src : Header) (p : String → Bool) (k : String) :
    Header.lookup (src.filter (fun kv => p kv.1)) k = if p k then src.lookup k else none := by
  induction src with
  | nil => simp [Header.lookup]
  | cons q rest ih =>
    obtain ⟨k0, v0⟩ := q
    rw [List.filter_cons]
    by_cases hp : p k0 = true
    · simp only [hp, if_true, Header.lookup_cons]
      by_cases hk : k0 = k
      · subst hk; simp [hp]
      · simp only [hk, if_false]; exact ih
    · simp only [hp, if_false, Header.lookup_cons]
      by_cases hk : k0 = k
      · subst hk; simp only [hp, if_false, if_true] at ih ⊢
        exact ih
      · simp only [hk, if_false]; exact ih

theorem Header.canonical_filter (src : Header) (p : String × List String → Bool)
    (hc : src.Canonical) : Header.Canonical (src.filter p) := by
  intro k hk
  apply hc k
  simp only [Header.keys, List.mem_map] at hk ⊢
  obtain ⟨a, ha, rfl⟩ := hk
  exact ⟨a, List.mem_of_mem_filter ha, rfl⟩

theorem Header.nodup_filter (src : Header) (p : String × List String → Bool)
    (hnd : src.keys.Nodup) : (Header.keys (src.filter p)).Nodup := by
  unfold Header.keys at hnd ⊢
  exact List.Nodup.sublist (List.Sublist.map _ (List.filter_sublist src)) hnd

theorem Header.lookup_clear (dst : Header) (hc : dst.Canonical) (k : String) :
    (dst.keys.foldl (fun dst k => Header.Del dst k) dst).lookup k = none := by
  have hkeep : ∀ (ks : List String) (h : Header), h.lookup k = none →
      (ks.foldl (fun dst k => Header.Del dst k) h).lookup k = none := by
    intro ks
    induction ks with
    | nil => intro h hh; exact hh
    | cons k0 ks ih =>
      intro h hh
      rw [List.foldl_cons]
      apply ih
      by_cases hk : k = CanonicalHeaderKey k0
      · rw [hk]; exact Header.lookup_delete_same h _
      · rw [Header.Del, Header.lookup_delete_ne h _ k hk]; exact hh
  have hdel : ∀ (ks : List String) (h : Header), k ∈ ks → CanonicalHeaderKey k = k →
      (ks.foldl (fun dst k => Header.Del dst k) h).lookup k = none := by
    intro ks
    induction ks with
    | nil => intro h hk; simp at hk
    | cons k0 ks ih =>
      intro h hk hcan
      rw [List.foldl_cons]
      by_cases h0 : k = k0
      · subst h0
        apply hkeep
        rw [Header.Del, hcan]
        exact Header.lookup_delete_same h k
      · exact ih _ (by simpa [h0] using hk) hcan
  by_cases hk : k ∈ dst.keys
  · exact hdel _ _ hk (hc k hk)
  · exact hkeep _ _ (Header.lookup_eq_none_of_not_mem dst k hk)

theorem Header.values_of_lookup_none (h : Header) (k : String) (hk : h.lookup k = none) :
    h.values k = [] := by
  simp [Header.values, hk]

theorem canonical_ContentType : CanonicalHeaderKey "Content-Type" = "Content-Type" := by decide

theorem canonical_CacheControl : CanonicalHeaderKey "Cache-Control" = "Cache-Control" := by
  decide

theorem canonical_Connection : CanonicalHeaderKey "Connection" = "Connection" := by decide

/-- The header map `copySSEHeaders` leaves in `dst`. -/
theorem copySSEHeaders_spec (dst src : Header) (hdst : dst.Canonical) (hsrc : src.Canonical)
    (hnd : src.keys.Nodup) :
    (copySSEHeaders dst src).lookup "Content-Type" = some ["text/event-stream"] ∧
    (copySSEHeaders dst src).lookup "Cache-Control" = some ["no-cache"] ∧
    (copySSEHeaders dst src).lookup "Connection" = some ["keep-alive"] ∧
    (∀ k, k ≠ "Content-Type" → k ≠ "Cache-Control" → k ≠ "Connection" →
      (copySSEHeaders dst src).values k = src.values k ∧
      (k ∉ src.keys → (copySSEHeaders dst src).lookup k = none)) := by
  unfold copySSEHeaders
  simp only [Header.Set, canonical_ContentType, canonical_CacheControl, canonical_Connection]
  refine ⟨?_, ?_, ?_, ?_⟩
  · rw [Header.lookup_store_ne _ _ _ _ (by decide), Header.lookup_store_ne _ _ _ _ (by decide),
      Header.lookup_store_same]
  · rw [Header.lookup_store_ne _ _ _ _ (by decide), Header.lookup_store_same]
  · rw [Header.lookup_store_same]
  · intro k h1 h2 h3
    have hl : ∀ d : Header,
        Header.lookup (((d.store "Content-Type" ["text/event-stream"]).store "Cache-Control"
          ["no-cache"]).store "Connection" ["keep-alive"]) k = d.lookup k := by
      intro d
      rw [Header.lookup_store_ne _ _ _ _ h3, Header.lookup_store_ne _ _ _ _ h2,
        Header.lookup_store_ne _ _ _ _ h1]
    constructor
    · have := addEntries_values src (dst.keys.foldl (fun dst k => Header.Del dst k) dst)
        hsrc hnd k
      rw [Header.values_of_lookup_none _ _ (Header.lookup_clear dst hdst k),
        List.nil_append] at this
      rw [← this]
      simp only [Header.values, hl]
    · intro hk
      rw [hl, addEntries_lookup_not_mem src _ hsrc k hk]
      exact Header.lookup_clear dst hdst k

/-- The header map `copyHeaders` leaves in `dst`. -/
theorem copyHeaders_spec (dst src : Header) (hsrc : src.Canonical) (hnd : src.keys.Nodup)
    (k : String) :
    (EqualFold k "Host" = false → (copyHeaders dst src).values k = dst.values k ++ src.values k) ∧
    (EqualFold k "Host" = true → (copyHeaders dst src).lookup k = dst.lookup k) := by
  rw [copyHeaders_eq_filter]
  have hc' := Header.canonical_filter src (fun kv => !EqualFold kv.1 "Host") hsrc
  have hnd' := Header.nodup_filter src (fun kv => !EqualFold kv.1 "Host") hnd
  have hlk := Header.lookup_filter src (fun k => !EqualFold k "Host") k
  constructor
  · intro hk
    rw [addEntries_values _ dst hc' hnd' k]
    simp only [Header.values, hlk, hk, Bool.not_false, if_true]
  · intro hk
    apply addEntries_lookup_not_mem _ dst hc' k
    intro hmem
    simp only [Header.keys, List.mem_map, List.mem_filter] at hmem
    obtain ⟨a, ⟨-, ha⟩, rfl⟩ := hmem
    simp [hk] at ha

theorem ResponseWriter.Write_of_wrote (w : ResponseWriter) (b : Bytes) (x : Nat × Header)
    (hw : w.wrote = some x) : (w.Write b).wrote = some x ∧ (w.Write b).body = w.body ++ b := by
  simp [ResponseWriter.Write, ResponseWriter.WriteHeader, hw]

theorem streamResponse_wrote (w : ResponseWriter) (resp : Response) (fl : Bool)
    (x : Nat × Header) (hw : w.wrote = some x) : (streamResponse w resp fl).wrote = some x := by
  unfold streamResponse
  split
  · simp [writeJSON, ResponseWriter.Write, ResponseWriter.WriteHeader, hw]
  · generalize resp.body.chunks = cs
    induction cs generalizing w with
    | nil => exact hw
    | cons c cs ih =>
      rw [List.foldl_cons]
      apply ih
      split
      · simp [ResponseWriter.Flush, ResponseWriter.Write, ResponseWriter.WriteHeader, hw]
      · exact hw

theorem ioCopy_spec (w : ResponseWriter) (r : Reader) (x : Nat × Header)
    (hw : w.wrote = some x) :
    (ioCopy w r).wrote = some x ∧ (ioCopy w r).body = w.body ++ r.chunks.flatten := by
  unfold ioCopy
  generalize r.chunks = cs
  induction cs generalizing w with
  | nil => simp [hw]
  | cons c cs ih =>
    obtain ⟨h1, h2⟩ := ResponseWriter.Write_of_wrote w c x hw
    obtain ⟨h3, h4⟩ := ih (w.Write c) h1
    rw [List.foldl_cons]
    refine ⟨h3, ?_⟩
    rw [h4, h2, List.flatten_cons, List.append_assoc]

theorem isSSE_eq_true_iff (stream : Bool) (resp : Response) :
    isSSE stream resp = true ↔
      (stream = true ∨
        "text/event-stream".data <:+: (ToLower (resp.header.Get "Content-Type")).data) := by
  simp [isSSE, Contains]

/-- What the streaming path sends when the names staged on the response are canonical. For
every request body and upstream response reached by the handler (the slot was acquired, the
body read, the upstream request built and answered), on a response not yet committed whose
staged header names, like the upstream ones, are in canonical form: if the parsed streaming
flag is true or the lower-cased upstream `Content-Type` contains `text/event-stream`, the
exchange is streamed and the headers sent with the upstream status are
`Content-Type: text/event-stream`, `Cache-Control: no-cache`, `Connection: keep-alive`,
under every other name exactly the upstream values in order, and nothing under a name the
upstream did not send; if neither holds the exchange is not streamed but buffered. -/
theorem sse_relay_of_canonical_headers (h : ProxyHandler) (w : ResponseWriter) (r : Request) (env : Env)
    (s : Scheduler) (body : Bytes) (resp : Response)
    (hA : Acquire h.sched r.ctx env.t0 env.now env.timerFirst env.pickDone = Outcome.ok s)
    (hR : ReadAll r.body = Except.ok body)
    (hN : env.newRequestErr = none)
    (hD : h.client { ctx := r.ctx, method := r.method,
                     url := { h.baseURL with path := r.path, rawQuery := r.rawQuery },
                     header := copyHeaders [] r.header, body := body } = Except.ok resp)
    (hw : w.wrote = none) (hstaged : w.header.Canonical)
    (hsrc : resp.header.Canonical) (hnd : resp.header.keys.Nodup) :
    ∃ res, handleChatCompletions h w r env = some res ∧
      ((extractStreamFlag env.unmarshal body = true ∨
          "text/event-stream".data <:+: (ToLower (resp.header.Get "Content-Type")).data) →
        Event.Streamed ∈ res.trace ∧ Event.Buffered ∉ res.trace ∧
        ∃ H, res.w.wrote = some (resp.statusCode, H) ∧
          H.lookup "Content-Type" = some ["text/event-stream"] ∧
          H.lookup "Cache-Control" = some ["no-cache"] ∧
          H.lookup "Connection" = some ["keep-alive"] ∧
          (∀ k, k ≠ "Content-Type" → k ≠ "Cache-Control" → k ≠ "Connection" →
            H.values k = resp.header.values k ∧
            (k ∉ resp.header.keys → H.lookup k = none))) ∧
      (¬ (extractStreamFlag env.unmarshal body = true ∨
          "text/event-stream".data <:+: (ToLower (resp.header.Get "Content-Type")).data) →
        Event.Streamed ∉ res.trace ∧ Event.Buffered ∈ res.trace) := by
  have hd := fun w' tr =>
    deferredRelease_after_Acquire h.sched s r.ctx env.t0 env.now env.timerFirst env.pickDone
      w' tr hA
  simp only [handleChatCompletions, hA, hR, hN, hD]
  by_cases hS : isSSE (extractStreamFlag env.unmarshal body) resp = true
  · have hS' := (isSSE_eq_true_iff _ _).1 hS
    rw [if_pos hS, hd]
    refine ⟨_, rfl, fun _ => ⟨by simp, by simp, _, ?_, copySSEHeaders_spec w.header resp.header
      hstaged hsrc hnd⟩, fun hn => absurd hS' hn⟩
    apply streamResponse_wrote
    simp [ResponseWriter.WriteHeader, hw]
  · have hS' := fun hc => hS ((isSSE_eq_true_iff _ _).2 hc)
    rw [if_neg hS, hd]
    exact ⟨_, rfl, fun hc => absurd hc hS', fun _ => ⟨by simp, by simp⟩⟩

/-- What the buffered path sends. For every upstream response reached by the handler that is
not treated as streaming, on a response not yet committed and with upstream header names in
canonical form: the status sent is the upstream status; under every name that is not `Host`
up to case the headers sent are the values already staged under that name followed by all
the upstream values in order; under a name equal to `Host` up to case nothing is copied;
and the body sent is byte for byte the concatenation of what was read from the upstream
body. -/
theorem buffered_relay_except_host (h : ProxyHandler) (w : ResponseWriter) (r : Request) (env : Env)
    (s : Scheduler) (body : Bytes) (resp : Response)
    (hA : Acquire h.sched r.ctx env.t0 env.now env.timerFirst env.pickDone = Outcome.ok s)
    (hR : ReadAll r.body = Except.ok body)
    (hN : env.newRequestErr = none)
    (hD : h.client { ctx := r.ctx, method := r.method,
                     url := { h.baseURL with path := r.path, rawQuery := r.rawQuery },
                     header := copyHeaders [] r.header, body := body } = Except.ok resp)
    (hS : isSSE (extractStreamFlag env.unmarshal body) resp = false)
    (hw : w.wrote = none)
    (hsrc : resp.header.Canonical) (hnd : resp.header.keys.Nodup) :
    ∃ res H, handleChatCompletions h w r env = some res ∧
      res.w.wrote = some (resp.statusCode, H) ∧
      (∀ k, EqualFold k "Host" = false →
        H.values k = w.header.values k ++ resp.header.values k) ∧
      (∀ k, EqualFold k "Host" = true → H.lookup k = w.header.lookup k) ∧
      res.w.body = w.body ++ resp.body.chunks.flatten := by
  have hd := fun w' tr =>
    deferredRelease_after_Acquire h.sched s r.ctx env.t0 env.now env.timerFirst env.pickDone
      w' tr hA
  simp only [handleChatCompletions, hA, hR, hN, hD, hS, Bool.false_eq_true, if_false]
  rw [hd]
  have hcopy := ioCopy_spec
    (ResponseWriter.WriteHeader { w with header := copyHeaders w.header resp.header }
      resp.statusCode) resp.body (resp.statusCode, copyHeaders w.header resp.header)
    (by simp [ResponseWriter.WriteHeader, hw])
  refine ⟨_, copyHeaders w.header resp.header, rfl, hcopy.1, ?_, ?_, ?_⟩
  · intro k hk
    exact (copyHeaders_spec w.header resp.header hsrc hnd k).1 hk
  · intro k hk
    exact (copyHeaders_spec w.header resp.header hsrc hnd k).2 hk
  · rw [hcopy.2]
    simp [ResponseWriter.WriteHeader, hw]

/-- The streaming path at a concrete input: the upstream answers with an event-stream content
type in mixed case while a header `X-Staged` is staged under its canonical name; the
exchange is streamed, the three headers are forced and the staged header is gone. -/
theorem sse_relay_of_canonical_headers_witness :
    ∃ res, handleChatCompletions (sampleHandler sseResponse)
        (ResponseWriter.fresh [("X-Staged", ["old"])]) sampleRequest (sampleEnv false) =
        some res ∧
      Event.Streamed ∈ res.trace ∧ Event.Buffered ∉ res.trace ∧
      ∃ H, res.w.wrote = some (sseResponse.statusCode, H) ∧
        H.lookup "Content-Type" = some ["text/event-stream"] ∧
        H.lookup "Cache-Control" = some ["no-cache"] ∧
        H.lookup "Connection" = some ["keep-alive"] ∧
        H.values "X-Request-Id" = ["7", "8"] ∧
        H.lookup "X-Staged" = none := by
  obtain ⟨res, h1, h2, -⟩ :=
    sse_relay_of_canonical_headers (sampleHandler sseResponse)
      (ResponseWriter.fresh [("X-Staged", ["old"])]) sampleRequest (sampleEnv false)
      { sem := { cap := 1, len := 1 }, waitTimeout := 60 } [123, 125] sseResponse
      (by decide) rfl rfl rfl rfl
      (by unfold Header.Canonical; decide) (by unfold Header.Canonical; decide) (by decide)
  obtain ⟨h3, h4, H, h5, h6, h7, h8, h9⟩ := h2 (Or.inr (by decide))
  refine ⟨res, h1, h3, h4, H, h5, h6, h7, h8, ?_, ?_⟩
  · rw [(h9 "X-Request-Id" (by decide) (by decide) (by decide)).1]
    decide
  · exact (h9 "X-Staged" (by decide) (by decide) (by decide)).2 (by decide)

/-- C9 (the code at the failing input): the upstream answers 200 with an event-stream content
type, so the exchange is streamed, while a header is staged on the response under the name
`x-staged`, written into the map as it stands. The loop `for k := range dst { dst.Del(k) }`
of `copySSEHeaders` deletes the name `X-Staged`, not `x-staged`: the staged header, which the
upstream did not send, is among the headers sent to the client. Staged under its canonical
name `X-Staged`, the same header is discarded. -/
theorem C9_noncanonical_staged_header_survives :
    isSSE (extractStreamFlag (sampleEnv false).unmarshal [123, 125]) sseResponse = true ∧
    sseResponse.header.lookup "x-staged" = none ∧
    (handleChatCompletions (sampleHandler sseResponse)
        (ResponseWriter.fresh [("x-staged", ["old"])]) sampleRequest (sampleEnv false)).map
        (fun res => res.w.wrote.map (fun sent => (sent.1, sent.2.lookup "x-staged"))) =
      some (some (200, some ["old"])) ∧
    (handleChatCompletions (sampleHandler sseResponse)
        (ResponseWriter.fresh [("X-Staged", ["old"])]) sampleRequest (sampleEnv false)).map
        (fun res => res.w.wrote.map (fun sent => (sent.1, sent.2.lookup "X-Staged"))) =
      some (some (200, none)) := by
  decide

/-- The buffered path at a concrete input: the JSON upstream response relayed on a response
with nothing staged. -/
theorem buffered_relay_except_host_witness :
    ∃ res H, handleChatCompletions (sampleHandler jsonResponse) (ResponseWriter.fresh [])
        sampleRequest (sampleEnv false) = some res ∧
      res.w.wrote = some (jsonResponse.statusCode, H) ∧
      (∀ k, EqualFold k "Host" = false →
        H.values k =
          (ResponseWriter.fresh []).header.values k ++ jsonResponse.header.values k) ∧
      (∀ k, EqualFold k "Host" = true → H.lookup k = (ResponseWriter.fresh []).header.lookup k) ∧
      res.w.body = (ResponseWriter.fresh []).body ++ jsonResponse.body.chunks.flatten :=
  buffered_relay_except_host (sampleHandler jsonResponse) (ResponseWriter.fresh []) sampleRequest
    (sampleEnv false) { sem := { cap := 1, len := 1 }, waitTimeout := 60 } [123, 125]
    jsonResponse (by decide) rfl rfl rfl (by decide) rfl
    (by unfold Header.Canonical; decide) (by decide)

/-- C10 (the code at the failing input): the upstream answers 200 with an ordinary content
type and a header `Host: upstream`. With the streaming flag false the exchange is buffered,
the status 200 and the body bytes are relayed, but the headers sent carry nothing under
`Host`: `copyHeaders`, whose test on `Host` serves the request direction, is reused for the
response. For the same upstream response with the streaming flag true, `copySSEHeaders`
relays `Host: upstream`. -/
theorem C10_upstream_host_header_dropped :
    isSSE (extractStreamFlag (sampleEnv false).unmarshal [123, 125]) jsonResponse = false ∧
    jsonResponse.header.lookup "Host" = some ["upstream"] ∧
    (handleChatCompletions (sampleHandler jsonResponse) (ResponseWriter.fresh []) sampleRequest
        (sampleEnv false)).map
        (fun res => res.w.wrote.map (fun sent => (sent.1, sent.2.lookup "Host"))) =
      some (some (200, none)) ∧
    (handleChatCompletions (sampleHandler jsonResponse) (ResponseWriter.fresh []) sampleRequest
        (sampleEnv false)).map (fun res => res.w.body) = some [123, 125] ∧
    (handleChatCompletions (sampleHandler jsonResponse) (ResponseWriter.fresh []) sampleRequest
        (sampleEnv false)).map (fun res => res.w.wrote) =
      some (some (200, [("X-Request-Id", ["7", "8"]), ("Content-Type", ["application/json"])])) ∧
    (handleChatCompletions (sampleHandler jsonResponse) (ResponseWriter.fresh []) sampleRequest
        (sampleEnv true)).map
        (fun res => res.w.wrote.map (fun sent => (sent.1, sent.2.lookup "Host"))) =
      some (some (200, some ["upstream"])) := by
  decide

/-! ## Theorems: engine supervisor -/

/-- C6 (fails as stated): the engine after a start that became ready and whose process then
exited with status 2. `Stop`, entered at instant 0 with a stop timeout of 10 and evaluated at
instant 1, observes the exit before the timeout elapses (`1 < 0 + 10`), does not kill, and
returns the non-nil exit error reported by `Wait`. -/
theorem C6_counterexample_exit_status_returned :
    (1 : Int) < 0 + 10 ∧
    (Stop ((startOnce (Engine.New { StartTimeout := 30, StopTimeout := 10, RestartBackoff := 2 })
        StartEvent.ready).1.processExited (some (GoError.ExitError 2))) 0 1 false).result =
      some (some (GoError.ExitError 2)) ∧
    (Stop ((startOnce (Engine.New { StartTimeout := 30, StopTimeout := 10, RestartBackoff := 2 })
        StartEvent.ready).1.processExited (some (GoError.ExitError 2))) 0 1 false).killed =
      false := by
  decide

theorem Stop_no_process (e : Engine) (t0 now : Int) (pickTimer : Bool)
    (h : e.cmd = none ∨ (∃ cmd, e.cmd = some cmd ∧ cmd.started = false) ∨ e.exitCh = none) :
    (Stop e t0 now pickTimer).result = some none ∧ (Stop e t0 now pickTimer).killed = false := by
  obtain ⟨cfg, cmd, exitCh, ready, stopping⟩ := e
  cases cmd with
  | none => simp [Stop]
  | some c =>
    by_cases hs : c.started = false
    · simp [Stop, hs]
    · rcases h with h | ⟨c', hc', hs'⟩ | h
      · simp at h
      · simp only [Option.some.injEq] at hc'
        subst hc'
        exact absurd hs' hs
      · simp only at h
        subst h
        simp [Stop, hs]

theorem Stop_started (cfg : EngineConfig) (c : Cmd) (buf : List (Option GoError))
    (ready stopping : Bool) (t0 now : Int) (pickTimer : Bool) (hs : c.started = true) :
    Stop { cfg := cfg, cmd := some c, exitCh := some { buf := buf }, ready := ready,
           stopping := stopping } t0 now pickTimer =
      match buf with
      | err :: rest =>
        if decide (t0 + cfg.StopTimeout ≤ now) && pickTimer then
          { engine := { cfg := cfg,
                        cmd := some { c with interrupted := true, killed := true },
                        exitCh := some { buf := err :: rest }, ready := ready,
                        stopping := true },
            result := some (some killedAfterStopTimeout), killed := true }
        else
          { engine := { cfg := cfg, cmd := some { c with interrupted := true },
                        exitCh := some { buf := rest }, ready := ready, stopping := true },
            result := some err, killed := false }
      | [] =>
        if decide (t0 + cfg.StopTimeout ≤ now) then
          { engine := { cfg := cfg,
                        cmd := some { c with interrupted := true, killed := true },
                        exitCh := some { buf := [] }, ready := ready, stopping := true },
            result := some (some killedAfterStopTimeout), killed := true }
        else
          { engine := { cfg := cfg, cmd := some { c with interrupted := true },
                        exitCh := some { buf := [] }, ready := ready, stopping := true },
            result := none, killed := false } := by
  cases buf <;> simp [Stop, hs]

/-- C6 (amended): for every engine state and every evaluation of `Stop`.
(1) When there is no command, no started process or no exit channel, `Stop` returns nil at
once and kills nothing.
(2) With a started process and an exit channel: when the exit value is there and `Stop` takes
it (the stop timeout has not elapsed, or the runtime picks the receive), `Stop` returns
exactly that value, the exit status reported by `Wait` (nil only when `Wait` reported none),
and does not kill; when `Stop` takes the timer it kills and returns the non-nil error
"llama-server killed after stop timeout"; with no exit value it is blocked until the stop
timeout has elapsed and then kills.
(3) Hence, if `Stop` killed, the stop timeout had elapsed and the error returned is that
non-nil error; and if it did not kill it is blocked, or returned nil for want of a process,
or returned the value received from the exit channel. -/
theorem C6_stop_result (e : Engine) (t0 now : Int) (pickTimer : Bool) :
    ((e.cmd = none ∨ (∃ cmd, e.cmd = some cmd ∧ cmd.started = false) ∨ e.exitCh = none) →
      (Stop e t0 now pickTimer).result = some none ∧
      (Stop e t0 now pickTimer).killed = false) ∧
    (∀ cmd err rest, e.cmd = some cmd → cmd.started = true →
      e.exitCh = some { buf := err :: rest } →
      (now < e.cfg.StopTimeout + t0 ∨ pickTimer = false) →
      (Stop e t0 now pickTimer).result = some err ∧ (Stop e t0 now pickTimer).killed = false) ∧
    (∀ cmd err rest, e.cmd = some cmd → cmd.started = true →
      e.exitCh = some { buf := err :: rest } →
      e.cfg.StopTimeout + t0 ≤ now → pickTimer = true →
      (Stop e t0 now pickTimer).result = some (some killedAfterStopTimeout) ∧
      (Stop e t0 now pickTimer).killed = true) ∧
    (∀ cmd, e.cmd = some cmd → cmd.started = true → e.exitCh = some { buf := [] } →
      e.cfg.StopTimeout + t0 ≤ now →
      (Stop e t0 now pickTimer).result = some (some killedAfterStopTimeout) ∧
      (Stop e t0 now pickTimer).killed = true) ∧
    (∀ cmd, e.cmd = some cmd → cmd.started = true → e.exitCh = some { buf := [] } →
      now < e.cfg.StopTimeout + t0 →
      (Stop e t0 now pickTimer).result = none ∧ (Stop e t0 now pickTimer).killed = false) ∧
    ((Stop e t0 now pickTimer).killed = true →
      e.cfg.StopTimeout + t0 ≤ now ∧
      (Stop e t0 now pickTimer).result = some (some killedAfterStopTimeout)) ∧
    ((Stop e t0 now pickTimer).killed = false →
      (Stop e t0 now pickTimer).result = none ∨
      ((Stop e t0 now pickTimer).result = some none ∧
        (e.cmd = none ∨ (∃ cmd, e.cmd = some cmd ∧ cmd.started = false) ∨ e.exitCh = none)) ∨
      (∃ err rest, e.exitCh = some { buf := err :: rest } ∧
        (Stop e t0 now pickTimer).result = some err)) := by
  refine ⟨Stop_no_process e t0 now pickTimer, ?_, ?_, ?_, ?_, ?_, ?_⟩
  · intro c err rest hc hs hch ht
    obtain ⟨cfg, cmd, exitCh, ready, stopping⟩ := e
    simp only at hc hch ht
    subst hc hch
    rw [Stop_started cfg c _ ready stopping t0 now pickTimer hs]
    have hcond : (decide (t0 + cfg.StopTimeout ≤ now) && pickTimer) = false := by
      rcases ht with ht | ht
      · have : ¬ t0 + cfg.StopTimeout ≤ now := by omega
        simp [this]
      · simp [ht]
    simp [hcond]
  · intro c err rest hc hs hch ht hp
    obtain ⟨cfg, cmd, exitCh, ready, stopping⟩ := e
    simp only at hc hch ht
    subst hc hch hp
    rw [Stop_started cfg c _ ready stopping t0 now true hs]
    have ht' : t0 + cfg.StopTimeout ≤ now := by omega
    simp [ht']
  · intro c hc hs hch ht
    obtain ⟨cfg, cmd, exitCh, ready, stopping⟩ := e
    simp only at hc hch ht
    subst hc hch
    rw [Stop_started cfg c _ ready stopping t0 now pickTimer hs]
    have ht' : t0 + cfg.StopTimeout ≤ now := by omega
    simp [ht']
  · intro c hc hs hch ht
    obtain ⟨cfg, cmd, exitCh, ready, stopping⟩ := e
    simp only at hc hch ht
    subst hc hch
    rw [Stop_started cfg c _ ready stopping t0 now pickTimer hs]
    have ht' : ¬ t0 + cfg.StopTimeout ≤ now := by omega
    simp [ht']
  · intro hk
    obtain ⟨cfg, cmd, exitCh, ready, stopping⟩ := e
    cases cmd with
    | none => simp [Stop] at hk
    | some c =>
      by_cases hs : c.started = false
      · simp [Stop, hs] at hk
      · cases exitCh with
        | none => simp [Stop, hs] at hk
        | some ch =>
          obtain ⟨buf⟩ := ch
          have hs' : c.started = true := by simpa using hs
          rw [Stop_started cfg c buf ready stopping t0 now pickTimer hs'] at hk ⊢
          cases buf with
          | nil =>
            by_cases ht : t0 + cfg.StopTimeout ≤ now
            · exact ⟨by simp only; omega, by simp [ht]⟩
            · simp [ht] at hk
          | cons err rest =>
            by_cases ht : t0 + cfg.StopTimeout ≤ now
            · cases pickTimer
              · simp [ht] at hk
              · exact ⟨by simp only; omega, by simp [ht]⟩
            · simp [ht] at hk
  · intro hk
    obtain ⟨cfg, cmd, exitCh, ready, stopping⟩ := e
    cases cmd with
    | none => right; left; simp [Stop]
    | some c =>
      by_cases hs : c.started = false
      · right; left; simp [Stop, hs]
      · cases exitCh with
        | none => right; left; simp [Stop, hs]
        | some ch =>
          obtain ⟨buf⟩ := ch
          have hs' : c.started = true := by simpa using hs
          rw [Stop_started cfg c buf ready stopping t0 now pickTimer hs'] at hk ⊢
          cases buf with
          | nil =>
            by_cases ht : t0 + cfg.StopTimeout ≤ now
            · simp [ht] at hk
            · left; simp [ht]
          | cons err rest =>
            right; right
            refine ⟨err, rest, rfl, ?_⟩
            by_cases ht : t0 + cfg.StopTimeout ≤ now
            · cases pickTimer
              · simp [ht]
              · simp [ht] at hk
            · simp [ht]

/-- C7 (the code at the failing input). First run: the first generation becomes ready, the
process crashes (exit status 1) before any stop, and `run` goes to sleep for the restart
backoff; `Stop` is then called and sets the stopping flag; the context is never cancelled.
When the sleep ends `run` is back at the head of its loop and calls `startOnce` a second
time: a new generation is spawned after the stop was requested, and `run` has not returned.
Second run: the first start fails, `Stop` sets the stopping flag during the backoff, and
`run` again calls `startOnce` once the sleep ends. -/
theorem C7_restart_after_stop_requested :
    ((supervise (Engine.New { StartTimeout := 30, StopTimeout := 10, RestartBackoff := 2 })
        [SysStep.run { ctxErr := none, start := StartEvent.ready, ctxErrAfter := none },
         SysStep.exited (some (GoError.ExitError 1)),
         SysStep.run { ctxErr := none, start := StartEvent.ready, ctxErrAfter := none },
         SysStep.stop 5 false]).1.stopping = true ∧
     (supervise (Engine.New { StartTimeout := 30, StopTimeout := 10, RestartBackoff := 2 })
        [SysStep.run { ctxErr := none, start := StartEvent.ready, ctxErrAfter := none },
         SysStep.exited (some (GoError.ExitError 1)),
         SysStep.run { ctxErr := none, start := StartEvent.ready, ctxErrAfter := none },
         SysStep.stop 5 false]).2 =
       { loc := RunLoc.sleepAfterExit, firstStart := false, readySent := [none], spawned := 1 } ∧
     (supervise (Engine.New { StartTimeout := 30, StopTimeout := 10, RestartBackoff := 2 })
        [SysStep.run { ctxErr := none, start := StartEvent.ready, ctxErrAfter := none },
         SysStep.exited (some (GoError.ExitError 1)),
         SysStep.run { ctxErr := none, start := StartEvent.ready, ctxErrAfter := none },
         SysStep.stop 5 false,
         SysStep.run { ctxErr := none, start := StartEvent.ready, ctxErrAfter := none },
         SysStep.run { ctxErr := none, start := StartEvent.ready, ctxErrAfter := none }]).2 =
       { loc := RunLoc.waitExit, firstStart := false, readySent := [none], spawned := 2 }) ∧
    ((supervise (Engine.New { StartTimeout := 30, StopTimeout := 10, RestartBackoff := 2 })
        [SysStep.run { ctxErr := none, start := StartEvent.startErr (GoError.New "not found"),
                       ctxErrAfter := none },
         SysStep.stop 5 false]).1.stopping = true ∧
     (supervise (Engine.New { StartTimeout := 30, StopTimeout := 10, RestartBackoff := 2 })
        [SysStep.run { ctxErr := none, start := StartEvent.startErr (GoError.New "not found"),
                       ctxErrAfter := none },
         SysStep.stop 5 false]).2 =
       { loc := RunLoc.sleepAfterFail, firstStart := false,
         readySent := [some (GoError.New "not found")], spawned := 1 } ∧
     (supervise (Engine.New { StartTimeout := 30, StopTimeout := 10, RestartBackoff := 2 })
        [SysStep.run { ctxErr := none, start := StartEvent.startErr (GoError.New "not found"),
                       ctxErrAfter := none },
         SysStep.stop 5 false,
         SysStep.run { ctxErr := none, start := StartEvent.ready, ctxErrAfter := none },
         SysStep.run { ctxErr := none, start := StartEvent.ready, ctxErrAfter := none }]).2 =
       { loc := RunLoc.waitExit, firstStart := false,
         readySent := [some (GoError.New "not found")], spawned := 2 }) := by
  decide

theorem processExited_cfg (e : Engine) (w : Option GoError) : (e.processExited w).cfg = e.cfg := by
  unfold Engine.processExited
  split
  · split <;> rfl
  · rfl

theorem Stop_cfg (e : Engine) (t0 now : Int) (p : Bool) : (Stop e t0 now p).engine.cfg = e.cfg := by
  unfold Stop
  simp only
  split
  · rfl
  · split
    · rfl
    · split
      · rfl
      · split
        · split <;> rfl
        · split <;> rfl

theorem runStep_first (e : Engine) (inp : RunInput) :
    (runStep e RunState.init inp).2.readySent = [firstOutcome e.cfg inp] ∧
    ((runStep e RunState.init inp).2.firstStart = false ∨
      (runStep e RunState.init inp).2.loc = RunLoc.returned) := by
  obtain ⟨ctxErr, start, ctxErrAfter⟩ := inp
  cases ctxErr with
  | some err => simp [runStep, RunState.init, firstOutcome]
  | none =>
    have hs : (startOnce e start).2 = startResult e.cfg start := by
      cases start <;> rfl
    simp only [runStep, RunState.init, firstOutcome, hs]
    cases hr : startResult e.cfg start with
    | none => simp
    | some err => cases ctxErrAfter <;> simp

theorem runStep_settled (e : Engine) (st : RunState) (inp : RunInput)
    (h : st.firstStart = false ∨ st.loc = RunLoc.returned) :
    (runStep e st inp).2.readySent = st.readySent ∧
    ((runStep e st inp).2.firstStart = false ∨ (runStep e st inp).2.loc = RunLoc.returned) := by
  obtain ⟨loc, firstStart, readySent, spawned⟩ := st
  obtain ⟨ctxErr, start, ctxErrAfter⟩ := inp
  cases loc with
  | returned => simp [runStep]
  | sleepAfterFail =>
    simp only [reduceCtorEq, or_false] at h
    simp [runStep, h]
  | sleepAfterExit =>
    simp only [reduceCtorEq, or_false] at h
    simp [runStep, h]
  | waitExit =>
    simp only [reduceCtorEq, or_false] at h
    subst h
    simp only [runStep]
    split
    · split <;> simp
    · simp
  | loopHead =>
    simp only [reduceCtorEq, or_false] at h
    subst h
    cases ctxErr with
    | some err => simp [runStep]
    | none =>
      simp only [runStep]
      cases hr : (startOnce e start).2 with
      | none => simp
      | some err => cases ctxErrAfter <;> simp

theorem sysStep_settled (steps : List SysStep) (c : Engine × RunState)
    (h : c.2.firstStart = false ∨ c.2.loc = RunLoc.returned) :
    (steps.foldl sysStep c).2.readySent = c.2.readySent := by
  induction steps generalizing c with
  | nil => rfl
  | cons step steps ih =>
    rw [List.foldl_cons]
    cases step with
    | run inp =>
      obtain ⟨h1, h2⟩ := runStep_settled c.1 c.2 inp h
      exact (ih (runStep c.1 c.2 inp) h2).trans h1
    | exited w => exact ih _ h
    | stop t p => exact ih _ h

theorem supervise_readySent (steps : List SysStep) (e : Engine) :
    (steps.foldl sysStep (e, RunState.init)).2.readySent =
      match firstRunInput steps with
      | none => []
      | some inp => [firstOutcome e.cfg inp] := by
  induction steps generalizing e with
  | nil => rfl
  | cons step steps ih =>
    rw [List.foldl_cons]
    cases step with
    | run inp =>
      obtain ⟨h1, h2⟩ := runStep_first e inp
      simp only [sysStep, firstRunInput]
      exact (sysStep_settled steps (runStep e RunState.init inp) h2).trans h1
    | exited w =>
      simp only [sysStep, firstRunInput]
      rw [ih, processExited_cfg]
    | stop t p =>
      simp only [sysStep, firstRunInput]
      rw [ih, Stop_cfg]

/-- C8: for every run of the supervising loop, whatever the later steps of the loop, of the
process and of `Stop`. Before the loop has taken its first step nothing was sent on the
ready channel; from its first step on exactly one value was sent, the outcome of the first
generation (the context's error if it was already done before the first spawn, else what
the first `startOnce` returned: nil when it became ready, its error when it failed), and no
later generation adds to it. So the number of values sent never exceeds the capacity 1 of
the channel (the send in `run` never blocks) and `Start` returns that one value. -/
theorem C8_ready_channel_first_generation_only (e : Engine) (steps : List SysStep) :
    (supervise e steps).2.readySent =
      (match firstRunInput steps with
       | none => []
       | some inp => [firstOutcome e.cfg inp]) ∧
    (supervise e steps).2.readySent.length ≤ readyChCap ∧
    Start e steps = (firstRunInput steps).map (firstOutcome e.cfg) := by
  have h := supervise_readySent steps e
  unfold Start supervise
  rw [h]
  cases firstRunInput steps <;> simp [readyChCap]

end Gollama
